import Mathlib

/-!
Shallow embedding of `src/python/csv_to_app_topology.py` (the CSV → application
topology synchronizer) and verification of the frozen claims about it.

Conventions of the embedding:
* Python strings are Lean `String`s; `re.findall` of the IPv4 pattern, `str.split`,
  `str.join` and `str.lower` are modelled by executable functions over `List Char`
  (ASCII, which covers every string the program manipulates).
* Python `set`s are modelled as duplicate-free `List`s in insertion order
  (`setAdd` is membership-guarded append); dicts as association lists in
  insertion order with first-key lookup.
* Fallible code returns `Except`; the external platform client is passed in as
  explicit oracle functions.
-/

namespace CsvAppTopo

/-- Error values raised by the script (`IpAddressNotFoundError`, Python's
`TypeError` and `KeyError`). -/
inductive PyErr where
  | ipAddressNotFound
  | typeError
  | keyError
deriving DecidableEq

/-- The dynamic value passed to `UserDefinedApp._process_ips`: `None`, a string,
or a list of strings. -/
inductive IpsArg where
  | noneV
  | strV (s : String)
  | listV (l : List String)
deriving DecidableEq

/-- `\w` for the ASCII strings the program handles. -/
def isWordChar (c : Char) : Bool := c.isAlphanum || c = '_'

/-- The position after the candidate digits satisfies `\b` iff the input is over
or continues with a non-word character. -/
def boundaryAfter : List Char → Bool
  | [] => true
  | c :: _ => !(isWordChar c)

/-- The position before the current character satisfies `\b` (the previous
character, when there is one, is a non-word character). -/
def boundaryBefore : Option Char → Bool
  | Option.none => true
  | Option.some c => !(isWordChar c)

/-- One `\d{1,3}\.` group of the IPv4 regex: the whole digit run at the current
position must be 1–3 characters long and be followed by a literal dot
(backtracking to a shorter digit match cannot help, because the next character
would still be a digit where the dot is required). -/
def grpDot (cs : List Char) : Option (List Char × List Char) :=
  let p := cs.span Char.isDigit
  if 1 ≤ p.1.length ∧ p.1.length ≤ 3 then
    match p.2 with
    | '.' :: r => Option.some (p.1 ++ ['.'], r)
    | _ => Option.none
  else Option.none

/-- The final `\d{1,3}\b` group: the whole digit run, 1–3 long, followed by a
word boundary. -/
def grpEnd (cs : List Char) : Option (List Char × List Char) :=
  let p := cs.span Char.isDigit
  if 1 ≤ p.1.length ∧ p.1.length ≤ 3 ∧ boundaryAfter p.2 then
    Option.some (p.1, p.2)
  else Option.none

/-- Try to match `\b\d{1,3}\.\d{1,3}\.\d{1,3}\.\d{1,3}\b` starting at the head
of `cs` (the leading `\b` is checked by the caller). Returns the matched
characters and the rest. -/
def matchIpAt (cs : List Char) : Option (List Char × List Char) :=
  match grpDot cs with
  | Option.none => Option.none
  | Option.some (a, r1) =>
    match grpDot r1 with
    | Option.none => Option.none
    | Option.some (b, r2) =>
      match grpDot r2 with
      | Option.none => Option.none
      | Option.some (c, r3) =>
        match grpEnd r3 with
        | Option.none => Option.none
        | Option.some (d, r4) => Option.some (a ++ b ++ c ++ d, r4)

/-- `re.findall` scan: try the pattern at every position from left to right,
resuming after the end of each (non-empty) match. `fuel` is an upper bound on
the number of scan steps; each step consumes at least one character, so the
input length is always enough fuel. -/
def scanIps : Nat → Option Char → List Char → List String
  | 0, _, _ => []
  | _ + 1, _, [] => []
  | fuel + 1, prev, c :: rest =>
    if boundaryBefore prev then
      match matchIpAt (c :: rest) with
      | Option.some (m, r) => m.asString :: scanIps fuel m.getLast? r
      | Option.none => scanIps fuel (Option.some c) rest
    else scanIps fuel (Option.some c) rest

/-- `re.findall(r"\b\d{1,3}\.\d{1,3}\.\d{1,3}\.\d{1,3}\b", s)`. -/
def findIps (s : String) : List String := scanIps s.data.length Option.none s.data

/-- Python `','.join(l)`. -/
def joinComma : List String → String
  | [] => ""
  | [s] => s
  | s :: rest => s ++ "," ++ joinComma rest

/-- Helper for `splitComma`: accumulate the current field (reversed). -/
def splitCommaAux (cur : List Char) : List Char → List String
  | [] => [cur.reverse.asString]
  | c :: rest =>
    if c = ',' then cur.reverse.asString :: splitCommaAux [] rest
    else splitCommaAux (c :: cur) rest

/-- Python `s.split(',')`; in particular `''.split(',') == ['']`. -/
def splitComma (s : String) : List String := splitCommaAux [] s.data

/-- `UserDefinedApp._process_ips`. Faithful to the source: in the
`isinstance(ips, list)` branch the loop body calls `re.findall(ip_regex, ips)`
on the *list itself* (the loop variable `ip` is never used), which raises
`TypeError` for any non-empty list; an empty list falls through to the
`IpAddressNotFoundError`. A string is scanned with `re.findall` and the matches
are comma-joined; no match raises `IpAddressNotFoundError`. Any other value
(such as `None`) also ends with `IpAddressNotFoundError`. -/
def process_ips : IpsArg → Except PyErr String
  | IpsArg.listV [] => Except.error PyErr.ipAddressNotFound
  | IpsArg.listV (_ :: _) => Except.error PyErr.typeError
  | IpsArg.strV s =>
    let ms := findIps s
    if ms = [] then Except.error PyErr.ipAddressNotFound else Except.ok (joinComma ms)
  | IpsArg.noneV => Except.error PyErr.ipAddressNotFound

/-- A member's `ip_address` field holds the canonical comma-joined string from
ingestion, and is overwritten with the platform VM's address *list* when the
member is matched (Python is dynamically typed; we tag the two shapes). -/
inductive IpVal where
  | s (v : String)
  | l (v : List String)
deriving DecidableEq

/-- One member dict of `UserDefinedApp.members`. -/
structure Member where
  name : String
  ip_address : IpVal
  turbo_oid : Option String
deriving DecidableEq

/-- `UserDefinedApp`: `member_uuids` is a Python `set`, modelled as a
duplicate-free list in insertion order. -/
structure UserDefinedApp where
  name : String
  members : List Member
  member_uuids : List String
deriving DecidableEq

/-- `UserDefinedApp.__init__`. -/
def UserDefinedApp.init (app_name : String) : UserDefinedApp :=
  { name := app_name, members := [], member_uuids := [] }

/-- Python `set.add` on the insertion-ordered list model. -/
def setAdd (s : List String) (x : String) : List String :=
  if x ∈ s then s else s ++ [x]

/-- Convert the `row.get('entity_ip')` value to a `_process_ips` argument. -/
def ipsArgOfOpt : Option String → IpsArg
  | Option.none => IpsArg.noneV
  | Option.some s => IpsArg.strV s

/-- The `member_info` dict built by `add_member`: `_process_ips` succeeds or the
`IpAddressNotFoundError` is caught and the ip stays `''`. (On a string or
`None` argument `_process_ips` can only fail with `IpAddressNotFoundError`.) -/
def mkMemberInfo (member_name : String) (member_ip : Option String) : Member :=
  { name := member_name,
    ip_address := IpVal.s (match process_ips (ipsArgOfOpt member_ip) with
      | Except.ok s => s
      | Except.error _ => ""),
    turbo_oid := Option.none }

/-- `UserDefinedApp.add_member`: discard the new member when an equal dict is
already present (first insert wins), otherwise append. -/
def UserDefinedApp.add_member (app : UserDefinedApp) (member_name : String)
    (member_ip : Option String) : UserDefinedApp :=
  let info := mkMemberInfo member_name member_ip
  if info ∈ app.members then app
  else { app with members := app.members ++ [info] }

/-- The variable part of the JSON DTO produced by
`UserDefinedApp._prep_app_topo_dto` (`entityType` and the nesting around
`staticConnections` are constants). -/
structure TopoDto where
  displayName : String
  staticConnections : List String
deriving DecidableEq

/-- `UserDefinedApp._prep_app_topo_dto`. -/
def UserDefinedApp.prep_app_topo_dto (app : UserDefinedApp) : TopoDto :=
  { displayName := app.name, staticConnections := app.member_uuids }

/-- Python truthiness of the `turbo_oid` field: `None` and `''` are falsy. -/
def oidTruthy : Option String → Bool
  | Option.none => false
  | Option.some s => !(s = "")

/-- `UserDefinedApp.del_member`: `list.remove`, removing the first equal
element (it is never called on an absent member in this program). -/
def UserDefinedApp.del_member (app : UserDefinedApp) (m : Member) : UserDefinedApp :=
  { app with members := app.members.erase m }

/-- The loop of `remove_members_without_matches`: iterate over a copy of the
member list, removing each member whose `turbo_oid` is falsy from the live
list. -/
def pruneLoop (current : List Member) : List Member → List Member
  | [] => current
  | m :: rest =>
    if oidTruthy m.turbo_oid then pruneLoop current rest
    else pruneLoop (current.erase m) rest

/-- `UserDefinedApp.remove_members_without_matches`. -/
def UserDefinedApp.remove_members_without_matches (app : UserDefinedApp) : UserDefinedApp :=
  { app with members := pruneLoop app.members app.members }

/-- One platform VM as assembled by the fetchers:
`{'uuid': ..., 'name': ..., 'ip_address': ...}`. -/
structure TurboVm where
  uuid : String
  name : String
  ip_address : List String
deriving DecidableEq

/-- Python `str.lower` (ASCII). -/
def lowerStr (s : String) : String := String.mk (s.data.map Char.toLower)

/-- The member's address set used by the matcher: `member['ip_address'].split(',')`.
During a run the field always still holds its ingestion-time string when the
member is matched (each member is visited once and the loop breaks on match),
so the list shape is unreachable here. -/
def memberIps : IpVal → List String
  | IpVal.s v => splitComma v
  | IpVal.l v => v

/-- The name+IP match condition of `match_apps_to_turbo_vms`:
`vm['name'].lower() == member['name'].lower() and vm_ips & set(vm['ip_address'])`. -/
def ipMatchCond (member : Member) (vm : TurboVm) : Bool :=
  (lowerStr vm.name == lowerStr member.name) &&
    (memberIps member.ip_address).any (fun ip => vm.ip_address.contains ip)

/-- The name-only match condition. -/
def nameMatchCond (member : Member) (vm : TurboVm) : Bool :=
  lowerStr vm.name == lowerStr member.name

/-- The condition selected by the `match_ip` flag. -/
def matchCond : Bool → Member → TurboVm → Bool
  | true, m, vm => ipMatchCond m vm
  | false, m, vm => nameMatchCond m vm

/-- The inner `for vm in turbo_vms` loop of `match_apps_to_turbo_vms` for one
member: on the first matching VM, overwrite the member's ip with the VM's
address list, set `turbo_oid`, add the uuid to the owning app's `member_uuids`
set, and break. Returns the (possibly updated) member and uuid set. -/
def matchMemberVms (match_ip : Bool) (member : Member) (uuids : List String) :
    List TurboVm → Member × List String
  | [] => (member, uuids)
  | vm :: rest =>
    if match_ip then
      if ipMatchCond member vm then
        ({ member with ip_address := IpVal.l vm.ip_address, turbo_oid := Option.some vm.uuid },
         setAdd uuids vm.uuid)
      else matchMemberVms match_ip member uuids rest
    else
      if nameMatchCond member vm then
        ({ member with ip_address := IpVal.l vm.ip_address, turbo_oid := Option.some vm.uuid },
         setAdd uuids vm.uuid)
      else matchMemberVms match_ip member uuids rest

/-- The `for member in app.members` loop: thread the `member_uuids` set through
the members in order. -/
def matchMembersLoop (match_ip : Bool) (vms : List TurboVm) :
    List Member → List String → List Member × List String
  | [], uuids => ([], uuids)
  | m :: rest, uuids =>
    let r := matchMemberVms match_ip m uuids vms
    let r2 := matchMembersLoop match_ip vms rest r.2
    (r.1 :: r2.1, r2.2)

/-- `match_apps_to_turbo_vms` restricted to one app. -/
def matchApp (match_ip : Bool) (vms : List TurboVm) (app : UserDefinedApp) : UserDefinedApp :=
  let r := matchMembersLoop match_ip vms app.members app.member_uuids
  { app with members := r.1, member_uuids := r.2 }

/-- The state of one app after its first `k` members have gone through the
matching loop (the remaining members are still untouched). -/
def matchAppSteps (match_ip : Bool) (vms : List TurboVm) (app : UserDefinedApp)
    (k : Nat) : UserDefinedApp :=
  let r := matchMembersLoop match_ip vms (app.members.take k) app.member_uuids
  { app with members := r.1 ++ app.members.drop k, member_uuids := r.2 }

/-- Python dict lookup on the association-list model (keys are unique by
construction; the first matching key wins). -/
def dictGet {α : Type} : List (String × α) → String → Option α
  | [], _ => Option.none
  | p :: rest, k => if p.1 == k then Option.some p.2 else dictGet rest k

/-- `match_apps_to_turbo_vms`: every app of the dict is matched in place. -/
def match_apps_to_turbo_vms (apps : List (String × UserDefinedApp))
    (turbo_vms : List TurboVm) (match_ip : Bool) : List (String × UserDefinedApp) :=
  apps.map (fun p => (p.1, matchApp match_ip turbo_vms p.2))

/-- One row of the data handed to `parse_csv_into_apps` by `read_csv`:
`row['app_name']`, `row['entity_name']` and `row.get('entity_ip')`. -/
structure CsvRow where
  app_name : String
  entity_name : String
  entity_ip : Option String
deriving DecidableEq

/-- The `member_info` a row turns into (`add_member(row['entity_name'],
row.get('entity_ip'))`). -/
def rowMember (row : CsvRow) : Member :=
  mkMemberInfo row.entity_name row.entity_ip

/-- The body of the `for row in csv_data` loop of `parse_csv_into_apps`:
skip blank app names, apply the configured name pfx (the source calls it
`prefix`), look up or create the app, and delegate to `add_member`. -/
def parse_step (pfx : String) (app_dict : List (String × UserDefinedApp))
    (row : CsvRow) : List (String × UserDefinedApp) :=
  if row.app_name = "" then app_dict
  else
    let app_name := pfx ++ row.app_name
    match dictGet app_dict app_name with
    | Option.some app =>
      app_dict.map (fun p =>
        if p.1 == app_name then (p.1, app.add_member row.entity_name row.entity_ip) else p)
    | Option.none =>
      app_dict ++ [(app_name, (UserDefinedApp.init app_name).add_member
        row.entity_name row.entity_ip)]

/-- `parse_csv_into_apps`. -/
def parse_csv_into_apps (csv_data : List CsvRow) (pfx : String) :
    List (String × UserDefinedApp) :=
  csv_data.foldl (parse_step pfx) []

/-- A VM detail response from the platform: `uuid`, `displayName`, and the
optional `aspects.virtualMachineAspect.ip` list. -/
structure VmDetails where
  uuid : String
  displayName : String
  ip : Option (List String)
deriving DecidableEq

/-- `get_vm_info`: a missing ip aspect (`KeyError`) becomes `[]`. -/
def get_vm_info (d : VmDetails) : TurboVm :=
  { uuid := d.uuid, name := d.displayName, ip_address := d.ip.getD [] }

/-- `get_individual_vm_details`: fetch each uuid on its own, skipping any uuid
whose fetch raises the remote-server error (`vc.HTTP500Error`). `single` is the
platform client's per-item detail call. -/
def get_individual_vm_details (single : String → Except Unit VmDetails) :
    List String → List TurboVm
  | [] => []
  | u :: rest =>
    match single u with
    | Except.error _ => get_individual_vm_details single rest
    | Except.ok d => get_vm_info d :: get_individual_vm_details single rest

/-- `get_multiple_vm_details`: try the bulk call (`conn.get_supplychains`);
on `vc.HTTP500Error` fall back to fetching the same uuids one by one. -/
def get_multiple_vm_details (bulk : List String → Except Unit (List VmDetails))
    (single : String → Except Unit VmDetails) (uuids : List String) : List TurboVm :=
  match bulk uuids with
  | Except.ok ds => ds.map get_vm_info
  | Except.error _ => get_individual_vm_details single uuids

/-- Python slice `l[a:b]`. -/
def sliceList {α : Type} (l : List α) (a b : Nat) : List α := (l.drop a).take (b - a)

/-- The `while end < len(uuids) ... else ...` loop of `get_turbo_vms`,
collecting the per-window detail results. `fuel` bounds the number of loop
iterations; `uuids.length + 1` is always enough when `step > 0`. -/
def turboVmLoop (fetch : List String → List TurboVm) (uuids : List String) :
    Nat → Nat → Nat → Nat → List TurboVm
  | 0, _, _, _ => []
  | fuel + 1, start, endI, step =>
    if endI < uuids.length then
      fetch (sliceList uuids start endI) ++
        turboVmLoop fetch uuids fuel (start + step) (endI + step) step
    else if start < uuids.length then
      fetch (sliceList uuids start uuids.length)
    else []

/-- `get_turbo_vms` for a given identifier list (the compact search result) and
per-window fetch (`get_multiple_vm_details`); `main` invokes it with
`start=0, end=500, step=500`. -/
def get_turbo_vms (fetch : List String → List TurboVm) (uuids : List String)
    (start endI step : Nat) : List TurboVm :=
  turboVmLoop fetch uuids (uuids.length + 1) start endI step

/-- The same loop, recording only the identifier windows it requests. -/
def turboWindowLoop (uuids : List String) : Nat → Nat → Nat → Nat → List (List String)
  | 0, _, _, _ => []
  | fuel + 1, start, endI, step =>
    if endI < uuids.length then
      sliceList uuids start endI ::
        turboWindowLoop uuids fuel (start + step) (endI + step) step
    else if start < uuids.length then
      [sliceList uuids start uuids.length]
    else []

/-- The identifier windows `get_turbo_vms` pages through. -/
def get_turbo_vm_windows (uuids : List String) (start endI step : Nat) :
    List (List String) :=
  turboWindowLoop uuids (uuids.length + 1) start endI step

/-- An existing platform topology definition (`displayName`/`uuid`). -/
structure ExistingDef where
  displayName : String
  uuid : String
deriving DecidableEq

/-- The `{app['displayName']: app['uuid']}` dict comprehension of
`make_apps_thru_atm` (later entries overwrite earlier ones). -/
def indexUpsert (d : List (String × String)) (k v : String) : List (String × String) :=
  if (dictGet d k).isSome then
    d.map (fun p => if p.1 == k then (p.1, v) else p)
  else d ++ [(k, v)]

/-- Build the name → uuid index of existing topology definitions. -/
def buildCurrentApps (defs : List ExistingDef) : List (String × String) :=
  defs.foldl (fun d a => indexUpsert d a.displayName a.uuid) []

/-- The write decided for one app by `make_apps_thru_atm`. -/
inductive AtmAction where
  | skipped (name : String)
  | update (uuid : String) (dto : TopoDto)
  | create (dto : TopoDto)
deriving DecidableEq

/-- The body of the `for app in apps.values()` loop of `make_apps_thru_atm`:
skip an app with no matched VMs, otherwise prune unmatched members and update
when the name is in the existing-definitions index (`KeyError` from the index
lookup means create). -/
def appAction (current_apps : List (String × String))
    (p : String × UserDefinedApp) : AtmAction :=
  if p.2.member_uuids = [] then AtmAction.skipped p.2.name
  else
    match dictGet current_apps p.2.remove_members_without_matches.name with
    | Option.some uuid =>
      AtmAction.update uuid p.2.remove_members_without_matches.prep_app_topo_dto
    | Option.none =>
      AtmAction.create p.2.remove_members_without_matches.prep_app_topo_dto

/-- `make_apps_thru_atm`: build the existing-definitions index once, then
decide one write per app. -/
def make_apps_thru_atm (existing : List ExistingDef)
    (apps : List (String × UserDefinedApp)) : List AtmAction :=
  apps.map (appAction (buildCurrentApps existing))

/-- A raw CSV row as `csv.DictReader` hands it over: column name → cell. -/
def CsvRawRow : Type := List (String × String)

/-- `row[v]` on a raw row (first matching column name wins). -/
def rowGet : CsvRawRow → String → Option String
  | [], _ => Option.none
  | p :: rest, k => if p.1 == k then Option.some p.2 else rowGet rest k

/-- `DifCsvReader._process_entity_headers`: build the entities dict in header
order; a missing column raises `KeyError`. -/
def process_entity_headers (hdrs : List (String × String)) (row : CsvRawRow) :
    Except Unit (List (String × String)) :=
  match hdrs with
  | [] => Except.ok []
  | (k, v) :: rest =>
    match rowGet row v with
    | Option.none => Except.error ()
    | Option.some val =>
      match process_entity_headers rest row with
      | Except.error e => Except.error e
      | Except.ok es => Except.ok ((k, val) :: es)

/-- `DifCsvReader.read_csv`: skip a row when its app-name cell is blank,
abort with `KeyError` when the app-name column (or, for a processed row, any
configured mapped column) is absent. -/
def read_csv (hdrs : List (String × String)) :
    List CsvRawRow → Except Unit (List (List (String × String)))
  | [] => Except.ok []
  | row :: rest =>
    match dictGet hdrs "app_name" with
    | Option.none => Except.error ()
    | Option.some col =>
      match rowGet row col with
      | Option.none => Except.error ()
      | Option.some v =>
        if v = "" then read_csv hdrs rest
        else
          match process_entity_headers hdrs row with
          | Except.error e => Except.error e
          | Except.ok e =>
            match read_csv hdrs rest with
            | Except.error e2 => Except.error e2
            | Except.ok d => Except.ok (e :: d)

/-- First-occurrence deduplication (what repeated `add_member` calls produce). -/
def dedupFirst {α : Type} [DecidableEq α] (l : List α) : List α :=
  l.foldl (fun acc m => if m ∈ acc then acc else acc ++ [m]) []

/-- The rows of the CSV that contribute members to the app called `name`
under name pfx `pfx`. -/
def rowKeep (pfx name : String) (r : CsvRow) : Bool :=
  (r.app_name != "") && (pfx ++ r.app_name == name)

/-- C3's invariant: `member_uuids` is exactly the set of `turbo_oid` values of
the matched members. -/
def uuidsInv (app : UserDefinedApp) : Prop :=
  ∀ x, x ∈ app.member_uuids ↔ ∃ m ∈ app.members, m.turbo_oid = Option.some x

/-- Invariant carried through the `parse_csv_into_apps` fold: every app of the
dict so far holds, in first-seen order and with exact-duplicate `member_info`
dicts discarded, the members of the rows seen so far that name it; apps absent
from the dict have no contributing row yet. -/
def parseInv (pfx : String) (d : List (String × UserDefinedApp))
    (seen : List CsvRow) : Prop :=
  ∀ name : String,
    (∀ app, dictGet d name = Option.some app →
      app.name = name ∧ app.member_uuids = [] ∧
      app.members = dedupFirst ((seen.filter (rowKeep pfx name)).map rowMember))
    ∧ (dictGet d name = Option.none → seen.filter (rowKeep pfx name) = [])

/-! ## General lemmas about the embedded operations -/

lemma setAdd_mem (u : List String) (x y : String) :
    y ∈ setAdd u x ↔ y ∈ u ∨ y = x := by
  by_cases hx : x ∈ u
  · simp only [setAdd, if_pos hx]
    exact ⟨Or.inl, fun h => h.elim id (fun hy => hy ▸ hx)⟩
  · simp [setAdd, if_neg hx, List.mem_append]

lemma setAdd_nodup (u : List String) (x : String) (h : u.Nodup) :
    (setAdd u x).Nodup := by
  by_cases hx : x ∈ u
  · simpa [setAdd, if_pos hx] using h
  · simp only [setAdd, if_neg hx]
    exact List.Nodup.append h (List.nodup_singleton x) (List.disjoint_singleton.mpr hx)

/-- The inner matching loop selects exactly the first VM satisfying the mode's
condition, updating the member and the uuid set; with no such VM it changes
nothing. -/
lemma matchMemberVms_eq (mi : Bool) (m : Member) (u : List String)
    (vms : List TurboVm) :
    matchMemberVms mi m u vms
      = (match vms.find? (matchCond mi m) with
         | Option.some vm =>
           ({ m with ip_address := IpVal.l vm.ip_address,
                     turbo_oid := Option.some vm.uuid },
            setAdd u vm.uuid)
         | Option.none => (m, u)) := by
  induction vms with
  | nil => rfl
  | cons vm rest ih =>
    cases mi with
    | true =>
      cases h : ipMatchCond m vm with
      | true => simp [matchMemberVms, List.find?_cons, matchCond, h]
      | false => simp [matchMemberVms, List.find?_cons, matchCond, h, ih]
    | false =>
      cases h : nameMatchCond m vm with
      | true => simp [matchMemberVms, List.find?_cons, matchCond, h]
      | false => simp [matchMemberVms, List.find?_cons, matchCond, h, ih]

lemma matchMembersLoop_snd_mem (mi : Bool) (vms : List TurboVm) :
    ∀ (ms : List Member) (u : List String),
      (∀ m ∈ ms, m.turbo_oid = Option.none) →
      ∀ x, x ∈ (matchMembersLoop mi vms ms u).2 ↔
        x ∈ u ∨ ∃ m ∈ (matchMembersLoop mi vms ms u).1, m.turbo_oid = Option.some x
  | [], u, _, x => by simp [matchMembersLoop]
  | m :: rest, u, hall, x => by
    have hm : m.turbo_oid = Option.none := hall m (List.mem_cons_self m rest)
    have hrest : ∀ m' ∈ rest, m'.turbo_oid = Option.none :=
      fun m' hm' => hall m' (List.mem_cons_of_mem m hm')
    simp only [matchMembersLoop, matchMemberVms_eq]
    cases hf : vms.find? (matchCond mi m) with
    | some vm =>
      have ih := matchMembersLoop_snd_mem mi vms rest (setAdd u vm.uuid) hrest x
      simp only [List.exists_mem_cons_iff, Option.some.injEq] at ih ⊢
      rw [ih, setAdd_mem]
      constructor
      · rintro ((h | h) | h)
        · exact Or.inl h
        · exact Or.inr (Or.inl h.symm)
        · exact Or.inr (Or.inr h)
      · rintro (h | h | h)
        · exact Or.inl (Or.inl h)
        · exact Or.inl (Or.inr h.symm)
        · exact Or.inr h
    | none =>
      have ih := matchMembersLoop_snd_mem mi vms rest u hrest x
      simp only [List.exists_mem_cons_iff] at ih ⊢
      rw [ih]
      simp [hm]

lemma matchMembersLoop_snd_sub (mi : Bool) (vms : List TurboVm) :
    ∀ (ms : List Member) (u : List String) (x : String),
      x ∈ (matchMembersLoop mi vms ms u).2 → x ∈ u ∨ ∃ vm ∈ vms, x = vm.uuid
  | [], u, x, h => Or.inl h
  | m :: rest, u, x, h => by
    simp only [matchMembersLoop, matchMemberVms_eq] at h
    cases hf : vms.find? (matchCond mi m) with
    | some vm =>
      rw [hf] at h
      rcases matchMembersLoop_snd_sub mi vms rest (setAdd u vm.uuid) x h with h' | h'
      · rcases (setAdd_mem u vm.uuid x).mp h' with h'' | h''
        · exact Or.inl h''
        · exact Or.inr ⟨vm, List.mem_of_find?_eq_some hf, h''⟩
      · exact Or.inr h'
    | none =>
      rw [hf] at h
      exact matchMembersLoop_snd_sub mi vms rest u x h

lemma matchMembersLoop_snd_nodup (mi : Bool) (vms : List TurboVm) :
    ∀ (ms : List Member) (u : List String), u.Nodup →
      (matchMembersLoop mi vms ms u).2.Nodup
  | [], u, h => h
  | m :: rest, u, h => by
    simp only [matchMembersLoop, matchMemberVms_eq]
    cases hf : vms.find? (matchCond mi m) with
    | some vm =>
      exact matchMembersLoop_snd_nodup mi vms rest (setAdd u vm.uuid)
        (setAdd_nodup u vm.uuid h)
    | none =>
      exact matchMembersLoop_snd_nodup mi vms rest u h

/-- A member with a truthy `turbo_oid` is never removed by the prune loop. -/
lemma pruneLoop_count_of_truthy (m : Member) (h : oidTruthy m.turbo_oid = true) :
    ∀ (copy current : List Member), (pruneLoop current copy).count m = current.count m
  | [], _ => rfl
  | c :: rest, current => by
    by_cases hc : oidTruthy c.turbo_oid
    · rw [pruneLoop, if_pos hc, pruneLoop_count_of_truthy m h rest current]
    · have hne : m ≠ c := fun e => hc (e ▸ h)
      rw [pruneLoop, if_neg hc, pruneLoop_count_of_truthy m h rest (current.erase c),
        List.count_erase_of_ne hne]

/-- Each copy-occurrence of a falsy member removes one live occurrence. -/
lemma pruneLoop_count_of_falsy (m : Member) (h : oidTruthy m.turbo_oid = false) :
    ∀ (copy current : List Member),
      (pruneLoop current copy).count m = current.count m - copy.count m
  | [], current => by simp [pruneLoop]
  | c :: rest, current => by
    by_cases hc : oidTruthy c.turbo_oid
    · have hne : m ≠ c := fun e => by rw [e, hc] at h; cases h
      rw [pruneLoop, if_pos hc, pruneLoop_count_of_falsy m h rest current,
        List.count_cons_of_ne hne]
    · rw [pruneLoop, if_neg hc, pruneLoop_count_of_falsy m h rest (current.erase c)]
      by_cases hmc : m = c
      · subst hmc
        rw [List.count_erase_self, List.count_cons_self]
        omega
      · rw [List.count_erase_of_ne hmc, List.count_cons_of_ne hmc]

/-- `remove_members_without_matches` keeps exactly the members whose
`turbo_oid` is truthy. -/
lemma mem_remove_members (app : UserDefinedApp) (m : Member) :
    m ∈ app.remove_members_without_matches.members ↔
      m ∈ app.members ∧ oidTruthy m.turbo_oid = true := by
  show m ∈ pruneLoop app.members app.members ↔ _
  cases h : oidTruthy m.turbo_oid with
  | true =>
    have := pruneLoop_count_of_truthy m h app.members app.members
    rw [← List.count_pos_iff, this, List.count_pos_iff]
    exact ⟨fun hm => ⟨hm, rfl⟩, fun hm => hm.1⟩
  | false =>
    have := pruneLoop_count_of_falsy m h app.members app.members
    rw [← List.count_pos_iff, this]
    simp

/-- `remove_members_without_matches` leaves `member_uuids` untouched. -/
lemma remove_members_uuids (app : UserDefinedApp) :
    app.remove_members_without_matches.member_uuids = app.member_uuids := rfl

/-- `remove_members_without_matches` leaves the name untouched. -/
lemma remove_members_name (app : UserDefinedApp) :
    app.remove_members_without_matches.name = app.name := rfl

lemma dedupFirst_go {α : Type} [DecidableEq α] :
    ∀ (l acc : List α) (x : α),
      x ∈ l.foldl (fun a m => if m ∈ a then a else a ++ [m]) acc → x ∈ acc ∨ x ∈ l
  | [], _, _, h => Or.inl h
  | a :: rest, acc, x, h => by
    rcases dedupFirst_go rest (if a ∈ acc then acc else acc ++ [a]) x h with h' | h'
    · by_cases ha : a ∈ acc
      · rw [if_pos ha] at h'
        exact Or.inl h'
      · rw [if_neg ha] at h'
        rcases List.mem_append.mp h' with h'' | h''
        · exact Or.inl h''
        · have hx : x = a := by simpa using h''
          exact Or.inr (hx ▸ List.mem_cons_self a rest)
    · exact Or.inr (List.mem_cons_of_mem a h')

lemma dedupFirst_subset {α : Type} [DecidableEq α] (l : List α) :
    dedupFirst l ⊆ l := by
  intro x hx
  rcases dedupFirst_go l [] x hx with h | h
  · cases h
  · exact h

lemma dedupFirst_append_single {α : Type} [DecidableEq α] (l : List α) (x : α) :
    dedupFirst (l ++ [x])
      = (if x ∈ dedupFirst l then dedupFirst l else dedupFirst l ++ [x]) := by
  simp [dedupFirst, List.foldl_append]

lemma dictGet_map_values {α β : Type} (f : α → β) (d : List (String × α)) (k : String) :
    dictGet (d.map (fun p => (p.1, f p.2))) k = (dictGet d k).map f := by
  induction d with
  | nil => rfl
  | cons p rest ih =>
    cases hp : p.1 == k with
    | true => simp [dictGet, hp]
    | false => simpa [dictGet, hp] using ih

lemma dictGet_update_self {α : Type} (d : List (String × α)) (k : String) (v a : α)
    (h : dictGet d k = Option.some a) :
    dictGet (d.map (fun p => if p.1 == k then (p.1, v) else p)) k = Option.some v := by
  induction d with
  | nil => cases h
  | cons p rest ih =>
    cases hp : p.1 == k with
    | true => simp [dictGet, hp]
    | false =>
      rw [dictGet, if_neg (by simp [hp])] at h
      simpa [dictGet, hp] using ih h

lemma dictGet_update_ne {α : Type} (d : List (String × α)) (k name : String) (v : α)
    (hne : name ≠ k) :
    dictGet (d.map (fun p => if p.1 == k then (p.1, v) else p)) name = dictGet d name := by
  induction d with
  | nil => rfl
  | cons p rest ih =>
    cases hp : p.1 == k with
    | true =>
      have hk : p.1 = k := by simpa using hp
      have hkn : ¬ k = name := fun h => hne h.symm
      have hn : (p.1 == name) = false := by simp [hk, hkn]
      simpa [dictGet, hp, hn, hk, hkn] using ih
    | false =>
      cases hn : p.1 == name with
      | true => simp [dictGet, hp, hn]
      | false => simpa [dictGet, hp, hn] using ih

lemma add_member_members (app : UserDefinedApp) (n : String) (ip : Option String) :
    (app.add_member n ip).members
      = (if mkMemberInfo n ip ∈ app.members then app.members
         else app.members ++ [mkMemberInfo n ip]) := by
  by_cases h : mkMemberInfo n ip ∈ app.members <;>
    simp [UserDefinedApp.add_member, h]

lemma add_member_name (app : UserDefinedApp) (n : String) (ip : Option String) :
    (app.add_member n ip).name = app.name := by
  by_cases h : mkMemberInfo n ip ∈ app.members <;>
    simp [UserDefinedApp.add_member, h]

lemma add_member_uuids (app : UserDefinedApp) (n : String) (ip : Option String) :
    (app.add_member n ip).member_uuids = app.member_uuids := by
  by_cases h : mkMemberInfo n ip ∈ app.members <;>
    simp [UserDefinedApp.add_member, h]

lemma parseInv_nil (pfx : String) : parseInv pfx [] [] := by
  intro name
  constructor
  · intro app h
    cases h
  · intro _
    rfl

lemma dictGet_append {α : Type} (d l : List (String × α)) (k : String) :
    dictGet (d ++ l) k
      = (match dictGet d k with
         | Option.some a => Option.some a
         | Option.none => dictGet l k) := by
  induction d with
  | nil => rfl
  | cons p rest ih =>
    cases hp : p.1 == k with
    | true => simp [dictGet, hp]
    | false => simpa [dictGet, hp] using ih

lemma parse_step_blank (pfx : String) (d : List (String × UserDefinedApp))
    (r : CsvRow) (h : r.app_name = "") : parse_step pfx d r = d := by
  simp [parse_step, h]

lemma parse_step_found (pfx : String) (d : List (String × UserDefinedApp))
    (r : CsvRow) (app : UserDefinedApp) (hblank : ¬ r.app_name = "")
    (hd : dictGet d (pfx ++ r.app_name) = Option.some app) :
    parse_step pfx d r
      = d.map (fun p => if p.1 == pfx ++ r.app_name
          then (p.1, app.add_member r.entity_name r.entity_ip) else p) := by
  simp [parse_step, hblank, hd]

lemma parse_step_new (pfx : String) (d : List (String × UserDefinedApp))
    (r : CsvRow) (hblank : ¬ r.app_name = "")
    (hd : dictGet d (pfx ++ r.app_name) = Option.none) :
    parse_step pfx d r
      = d ++ [(pfx ++ r.app_name,
          (UserDefinedApp.init (pfx ++ r.app_name)).add_member
            r.entity_name r.entity_ip)] := by
  simp [parse_step, hblank, hd]

lemma rowKeep_of_ne (pfx name : String) (r : CsvRow)
    (hname : ¬ name = pfx ++ r.app_name) : rowKeep pfx name r = false := by
  have h2 : ¬ pfx ++ r.app_name = name := fun e => hname e.symm
  have : (pfx ++ r.app_name == name) = false := by simpa using h2
  simp [rowKeep, this]

lemma parse_step_inv (pfx : String) (d : List (String × UserDefinedApp))
    (seen : List CsvRow) (r : CsvRow) (h : parseInv pfx d seen) :
    parseInv pfx (parse_step pfx d r) (seen ++ [r]) := by
  intro name
  by_cases hblank : r.app_name = ""
  · have hk : rowKeep pfx name r = false := by simp [rowKeep, hblank]
    rw [parse_step_blank pfx d r hblank]
    constructor
    · intro app happ
      simpa [List.filter_append, hk] using (h name).1 app happ
    · intro happ
      simp [List.filter_append, hk, (h name).2 happ]
  · cases hd : dictGet d (pfx ++ r.app_name) with
    | some app =>
      rw [parse_step_found pfx d r app hblank hd]
      by_cases hname : name = pfx ++ r.app_name
      · subst hname
        have hk : rowKeep pfx (pfx ++ r.app_name) r = true := by
          simp [rowKeep, hblank]
        have hup := dictGet_update_self d (pfx ++ r.app_name)
          (app.add_member r.entity_name r.entity_ip) app hd
        have hih := (h (pfx ++ r.app_name)).1 app hd
        constructor
        · intro app' happ'
          rw [hup] at happ'
          have he : app' = app.add_member r.entity_name r.entity_ip :=
            (Option.some.inj happ').symm
          subst he
          refine ⟨?_, ?_, ?_⟩
          · rw [add_member_name, hih.1]
          · rw [add_member_uuids, hih.2.1]
          · rw [add_member_members, hih.2.2]
            have hfil : List.filter (rowKeep pfx (pfx ++ r.app_name)) [r] = [r] := by
              simp [hk]
            rw [List.filter_append, hfil]
            simp only [List.map_append, List.map_cons, List.map_nil]
            rw [dedupFirst_append_single]
            simp [rowMember]
        · intro happ'
          rw [hup] at happ'
          cases happ'
      · have hk : rowKeep pfx name r = false := rowKeep_of_ne pfx name r hname
        have hup := dictGet_update_ne d (pfx ++ r.app_name) name
          (app.add_member r.entity_name r.entity_ip) hname
        constructor
        · intro app' happ'
          rw [hup] at happ'
          simpa [List.filter_append, hk] using (h name).1 app' happ'
        · intro happ'
          rw [hup] at happ'
          simp [List.filter_append, hk, (h name).2 happ']
    | none =>
      rw [parse_step_new pfx d r hblank hd]
      have happend := dictGet_append d
        [(pfx ++ r.app_name, (UserDefinedApp.init (pfx ++ r.app_name)).add_member
          r.entity_name r.entity_ip)] name
      constructor
      · intro app' happ'
        rw [happend] at happ'
        cases hdn : dictGet d name with
        | some a =>
          rw [hdn] at happ'
          have he : app' = a := (Option.some.inj happ').symm
          subst he
          have hname : ¬ name = pfx ++ r.app_name := by
            intro e
            rw [e, hd] at hdn
            cases hdn
          have hk : rowKeep pfx name r = false := rowKeep_of_ne pfx name r hname
          simpa [List.filter_append, hk] using (h name).1 app' hdn
        | none =>
          rw [hdn] at happ'
          simp only [dictGet] at happ'
          by_cases hname : (pfx ++ r.app_name == name) = true
          · rw [if_pos hname] at happ'
            have he : app' = (UserDefinedApp.init (pfx ++ r.app_name)).add_member
                r.entity_name r.entity_ip := (Option.some.inj happ').symm
            subst he
            have hne : pfx ++ r.app_name = name := by simpa using hname
            have hk : rowKeep pfx name r = true := by
              simp [rowKeep, hblank, hne]
            have hempty := (h name).2 hdn
            refine ⟨?_, ?_, ?_⟩
            · rw [add_member_name]
              exact hne
            · rw [add_member_uuids]
              rfl
            · rw [add_member_members]
              have hfil : List.filter (rowKeep pfx name) [r] = [r] := by
                simp [hk]
              rw [List.filter_append, hfil, hempty]
              simp [UserDefinedApp.init, dedupFirst, rowMember]
          · rw [if_neg hname] at happ'
            cases happ'
      · intro happ'
        rw [happend] at happ'
        cases hdn : dictGet d name with
        | some a =>
          rw [hdn] at happ'
          cases happ'
        | none =>
          rw [hdn] at happ'
          simp only [dictGet] at happ'
          by_cases hname : (pfx ++ r.app_name == name) = true
          · rw [if_pos hname] at happ'
            cases happ'
          · have hname2 : ¬ name = pfx ++ r.app_name := by
              intro e
              rw [e] at hname
              simp at hname
            have hk : rowKeep pfx name r = false := rowKeep_of_ne pfx name r hname2
            simp [List.filter_append, hk, (h name).2 hdn]

lemma parse_foldl_inv (pfx : String) :
    ∀ (rows : List CsvRow) (d : List (String × UserDefinedApp)) (seen : List CsvRow),
      parseInv pfx d seen →
      parseInv pfx (rows.foldl (parse_step pfx) d) (seen ++ rows)
  | [], d, seen, h => by simpa using h
  | r :: rest, d, seen, h => by
    have h1 := parse_step_inv pfx d seen r h
    have h2 := parse_foldl_inv pfx rest (parse_step pfx d r) (seen ++ [r]) h1
    have he : (seen ++ [r]) ++ rest = seen ++ (r :: rest) := by simp
    rw [he] at h2
    exact h2

/-- Characterization of `parse_csv_into_apps`: every app of the resulting dict
carries its own name, an empty uuid set, and exactly the first-occurrence
deduplicated `member_info`s of the non-blank rows naming it. -/
lemma parse_char (rows : List CsvRow) (pfx name : String) (app : UserDefinedApp)
    (h : dictGet (parse_csv_into_apps rows pfx) name = Option.some app) :
    app.name = name ∧ app.member_uuids = [] ∧
      app.members = dedupFirst ((rows.filter (rowKeep pfx name)).map rowMember) := by
  have hinv := parse_foldl_inv pfx rows [] [] (parseInv_nil pfx)
  rw [List.nil_append] at hinv
  exact (hinv name).1 app h

/-- Freshly parsed apps have no matched member and an empty uuid set. -/
lemma parse_members_clean (rows : List CsvRow) (pfx name : String)
    (app : UserDefinedApp)
    (h : dictGet (parse_csv_into_apps rows pfx) name = Option.some app) :
    (∀ m ∈ app.members, m.turbo_oid = Option.none) ∧ app.member_uuids = [] := by
  obtain ⟨-, huuids, hm⟩ := parse_char rows pfx name app h
  refine ⟨?_, huuids⟩
  intro m hm'
  rw [hm] at hm'
  rcases List.mem_map.mp (dedupFirst_subset _ hm') with ⟨r, -, he⟩
  rw [← he]
  rfl

lemma matchApp_eq_steps (mi : Bool) (vms : List TurboVm) (app : UserDefinedApp) :
    matchApp mi vms app = matchAppSteps mi vms app app.members.length := by
  simp [matchApp, matchAppSteps, List.take_length, List.drop_length]

lemma get_individual_filterMap (single : String → Except Unit VmDetails) :
    ∀ uuids : List String,
      get_individual_vm_details single uuids
        = uuids.filterMap (fun u => match single u with
            | Except.ok d => Option.some (get_vm_info d)
            | Except.error _ => Option.none)
  | [] => rfl
  | u :: rest => by
    cases hs : single u with
    | error e =>
      simp [get_individual_vm_details, hs, List.filterMap_cons,
        get_individual_filterMap single rest]
    | ok d =>
      simp [get_individual_vm_details, hs, List.filterMap_cons,
        get_individual_filterMap single rest]

lemma turboVmLoop_eq_windows (fetch : List String → List TurboVm)
    (uuids : List String) :
    ∀ (fuel start endI step : Nat),
      turboVmLoop fetch uuids fuel start endI step
        = ((turboWindowLoop uuids fuel start endI step).map fetch).flatten
  | 0, _, _, _ => rfl
  | fuel + 1, start, endI, step => by
    by_cases h1 : endI < uuids.length
    · simp [turboVmLoop, turboWindowLoop, h1,
        turboVmLoop_eq_windows fetch uuids fuel (start + step) (endI + step) step]
    · by_cases h2 : start < uuids.length
      · simp [turboVmLoop, turboWindowLoop, h1, h2]
      · simp [turboVmLoop, turboWindowLoop, h1, h2]

lemma turboWindowLoop_join (uuids : List String) (step : Nat) (hstep : 0 < step) :
    ∀ (fuel start : Nat), uuids.length ≤ fuel + start →
      (turboWindowLoop uuids fuel start (start + step) step).flatten = uuids.drop start
  | 0, start => by
    intro hle
    have hnil : uuids.drop start = [] := List.drop_eq_nil_of_le (by omega)
    simp [turboWindowLoop, hnil]
  | fuel + 1, start => by
    intro hle
    by_cases h1 : start + step < uuids.length
    · have ih := turboWindowLoop_join uuids step hstep fuel (start + step) (by omega)
      rw [turboWindowLoop, if_pos h1]
      rw [List.flatten_cons, ih]
      show (uuids.drop start).take (start + step - start) ++ uuids.drop (start + step)
        = uuids.drop start
      have h2 : start + step - start = step := by omega
      have h3 : uuids.drop (start + step) = (uuids.drop start).drop step :=
        (List.drop_drop step start uuids).symm
      rw [h2, h3, List.take_append_drop]
    · by_cases h2 : start < uuids.length
      · rw [turboWindowLoop, if_neg h1, if_pos h2]
        have h4 : (uuids.drop start).take (uuids.length - start) = uuids.drop start :=
          List.take_of_length_le (by simp)
        simp only [List.flatten_cons, List.flatten_nil, List.append_nil]
        exact h4
      · rw [turboWindowLoop, if_neg h1, if_neg h2]
        have hnil : uuids.drop start = [] := List.drop_eq_nil_of_le (by omega)
        simp [hnil]

lemma turboWindowLoop_bounds (uuids : List String) (step : Nat) (hstep : 0 < step) :
    ∀ (fuel start : Nat) (w : List String),
      w ∈ turboWindowLoop uuids fuel start (start + step) step →
      w ≠ [] ∧ w.length ≤ step
  | 0, start, w => by
    intro hw
    cases hw
  | fuel + 1, start, w => by
    intro hw
    by_cases h1 : start + step < uuids.length
    · rw [turboWindowLoop, if_pos h1] at hw
      rcases List.mem_cons.mp hw with h | h
      · subst h
        have hlen : (sliceList uuids start (start + step)).length
            = min (start + step - start) (uuids.length - start) := by
          simp [sliceList, List.length_take, List.length_drop]
        constructor
        · have : 0 < (sliceList uuids start (start + step)).length := by
            rw [hlen]
            omega
          exact fun e => by rw [e] at this; cases this
        · rw [hlen]
          omega
      · exact turboWindowLoop_bounds uuids step hstep fuel (start + step) w h
    · by_cases h2 : start < uuids.length
      · rw [turboWindowLoop, if_neg h1, if_pos h2] at hw
        have h3 : w = sliceList uuids start uuids.length := by simpa using hw
        subst h3
        have hlen : (sliceList uuids start uuids.length).length
            = min (uuids.length - start) (uuids.length - start) := by
          simp [sliceList, List.length_take, List.length_drop]
        constructor
        · have : 0 < (sliceList uuids start uuids.length).length := by
            rw [hlen]
            omega
          exact fun e => by rw [e] at this; cases this
        · rw [hlen]
          omega
      · rw [turboWindowLoop, if_neg h1, if_neg h2] at hw
        cases hw

lemma process_entity_headers_error (row : CsvRawRow) :
    ∀ (hdrs : List (String × String)),
      (∃ kv ∈ hdrs, rowGet row kv.2 = Option.none) →
      process_entity_headers hdrs row = Except.error ()
  | [], h => by
    rcases h with ⟨kv, hkv, -⟩
    cases hkv
  | (k, v) :: rest, h => by
    rcases h with ⟨kv, hkv, hget⟩
    rcases List.mem_cons.mp hkv with he | hm
    · rw [he] at hget
      simp [process_entity_headers, hget]
    · rw [process_entity_headers]
      cases hr : rowGet row v with
      | none => rfl
      | some val =>
        rw [process_entity_headers_error row rest ⟨kv, hm, hget⟩]

/-! ## The claims -/

/-- C1: in name+IP mode, the matching loop resolves a still-unmatched member
to exactly the first platform VM in fetch order that satisfies
case-insensitive name equality together with a non-empty intersection of the
member's and the VM's address sets (`ipMatchCond`); a VM failing either
condition is never selected, after the first hit no later VM is considered,
and exactly the selected VM's id joins the uuid set. -/
theorem C1_name_ip_first_match (member : Member) (uuids : List String)
    (vms : List TurboVm) (h : member.turbo_oid = Option.none) :
    (matchMemberVms true member uuids vms).1.turbo_oid
        = (vms.find? (ipMatchCond member)).map (fun vm => vm.uuid)
      ∧ (matchMemberVms true member uuids vms).2
        = (match vms.find? (ipMatchCond member) with
           | Option.some vm => setAdd uuids vm.uuid
           | Option.none => uuids) := by
  have e := matchMemberVms_eq true member uuids vms
  cases hf : vms.find? (ipMatchCond member) with
  | some vm =>
    rw [show vms.find? (matchCond true member) = Option.some vm from hf] at e
    rw [e]
    exact ⟨rfl, rfl⟩
  | none =>
    rw [show vms.find? (matchCond true member) = Option.none from hf] at e
    rw [e]
    exact ⟨h, rfl⟩

/-- Witness for C1: concrete member and inventory where the first VM fails the
name test, the second fails the IP test, and the third is selected over the
fourth. -/
theorem C1_witness :
    ((⟨"vm1", IpVal.s "10.0.0.5", Option.none⟩ : Member).turbo_oid = Option.none)
    ∧ (matchMemberVms true ⟨"vm1", IpVal.s "10.0.0.5", Option.none⟩ []
        [⟨"u0", "other", ["10.0.0.5"]⟩, ⟨"u1", "VM1", ["10.0.0.7"]⟩,
         ⟨"u2", "VM1", ["10.0.0.5", "10.0.0.6"]⟩,
         ⟨"u3", "VM1", ["10.0.0.5"]⟩]).1.turbo_oid
      = Option.some "u2" := by
  refine ⟨rfl, ?_⟩
  rw [(C1_name_ip_first_match ⟨"vm1", IpVal.s "10.0.0.5", Option.none⟩ []
    [⟨"u0", "other", ["10.0.0.5"]⟩, ⟨"u1", "VM1", ["10.0.0.7"]⟩,
     ⟨"u2", "VM1", ["10.0.0.5", "10.0.0.6"]⟩,
     ⟨"u3", "VM1", ["10.0.0.5"]⟩] rfl).1]
  decide

/-- C2 (code bug): `_process_ips` on a non-empty list argument raises
`TypeError`, because the loop body applies `re.findall` to the list itself
(the loop variable `ip` is never used), so the claimed idempotence over lists
never gets off the ground: no list input yields an address string at all. -/
theorem C2_process_ips_list_raises :
    process_ips (IpsArg.listV ["10.0.0.1"]) = Except.error PyErr.typeError := rfl

/-- C3: for every app coming out of ingestion, `member_uuids` is exactly the
set of `turbo_oid` values of its matched members — after ingestion, after each
member processed during matching, after matching, and after pruning (platform
ids are non-empty strings). -/
theorem C3_resolved_ids_invariant (rows : List CsvRow) (pfx : String) (mi : Bool)
    (vms : List TurboVm) (name : String) (app : UserDefinedApp)
    (h : dictGet (parse_csv_into_apps rows pfx) name = Option.some app)
    (hvm : ∀ vm ∈ vms, vm.uuid ≠ "") :
    uuidsInv app
    ∧ (∀ k, uuidsInv (matchAppSteps mi vms app k))
    ∧ uuidsInv (matchApp mi vms app)
    ∧ uuidsInv (matchApp mi vms app).remove_members_without_matches := by
  obtain ⟨hall, huuids⟩ := parse_members_clean rows pfx name app h
  have base : uuidsInv app := by
    intro x
    rw [huuids]
    constructor
    · intro hx
      cases hx
    · rintro ⟨m, hm, hoid⟩
      rw [hall m hm] at hoid
      cases hoid
  have hsteps : ∀ k, uuidsInv (matchAppSteps mi vms app k) := by
    intro k x
    have htake : ∀ m ∈ app.members.take k, m.turbo_oid = Option.none :=
      fun m hm => hall m (List.take_subset k app.members hm)
    have hdrop : ∀ m ∈ app.members.drop k, m.turbo_oid = Option.none :=
      fun m hm => hall m (List.drop_subset k app.members hm)
    show x ∈ (matchMembersLoop mi vms (app.members.take k) app.member_uuids).2 ↔ _
    rw [matchMembersLoop_snd_mem mi vms (app.members.take k) app.member_uuids htake x]
    constructor
    · rintro (hx | ⟨m, hm, hoid⟩)
      · rw [huuids] at hx
        cases hx
      · exact ⟨m, List.mem_append.mpr (Or.inl hm), hoid⟩
    · rintro ⟨m, hm, hoid⟩
      rcases List.mem_append.mp hm with h' | h'
      · exact Or.inr ⟨m, h', hoid⟩
      · rw [hdrop m h'] at hoid
        cases hoid
  have hfull : uuidsInv (matchApp mi vms app) := by
    rw [matchApp_eq_steps]
    exact hsteps app.members.length
  refine ⟨base, hsteps, hfull, ?_⟩
  intro x
  constructor
  · intro hx
    have hx' : x ∈ (matchApp mi vms app).member_uuids := hx
    rcases (hfull x).mp hx' with ⟨m, hm, hoid⟩
    have hxne : x ≠ "" := by
      rcases matchMembersLoop_snd_sub mi vms app.members app.member_uuids x hx'
        with h' | ⟨vm, hvm', he⟩
      · rw [huuids] at h'
        cases h'
      · rw [he]
        exact hvm vm hvm'
    refine ⟨m, (mem_remove_members (matchApp mi vms app) m).mpr ⟨hm, ?_⟩, hoid⟩
    rw [hoid]
    simp [oidTruthy, hxne]
  · rintro ⟨m, hm, hoid⟩
    obtain ⟨hm', -⟩ := (mem_remove_members (matchApp mi vms app) m).mp hm
    exact (hfull x).mpr ⟨m, hm', hoid⟩

/-- Witness for C3 at a one-row CSV and one-VM inventory. -/
theorem C3_witness :
    uuidsInv (matchApp true [⟨"u1", "VM1", ["10.0.0.5"]⟩]
      ⟨"A", [⟨"vm1", IpVal.s "10.0.0.5", Option.none⟩], []⟩) :=
  (C3_resolved_ids_invariant [⟨"A", "vm1", Option.some "10.0.0.5"⟩] "" true
    [⟨"u1", "VM1", ["10.0.0.5"]⟩] "A"
    ⟨"A", [⟨"vm1", IpVal.s "10.0.0.5", Option.none⟩], []⟩
    (by decide) (by decide)).2.2.1

/-- C4 counterexample: two rows with the same member name and the same address
*set* — but oppositely ordered address strings — are both kept, so the member
count is 2 where the claim (rows minus (name, address-set)-duplicates)
predicts 1: the duplicate check compares the canonical comma-joined string,
not the address set. -/
theorem C4_counterexample :
    ((dictGet (parse_csv_into_apps
        [⟨"A", "vm1", Option.some "10.0.0.1,10.0.0.2"⟩,
         ⟨"A", "vm1", Option.some "10.0.0.2,10.0.0.1"⟩] "") "A").map
      (fun app => app.members.length) = Option.some 2)
    ∧ (findIps "10.0.0.1,10.0.0.2").toFinset
        = (findIps "10.0.0.2,10.0.0.1").toFinset := by
  exact ⟨by decide, by decide⟩

/-- C4 (amended): each emitted app's member list is the first-occurrence
deduplication of the `member_info`s (entity name plus canonical comma-joined
extracted-address string — order- and multiplicity-sensitive, not an address
set) of the non-blank rows naming it; in particular the member count is the
number of such rows minus the exact duplicates, and the first insert wins. -/
theorem C4_member_count (rows : List CsvRow) (pfx name : String)
    (app : UserDefinedApp)
    (h : dictGet (parse_csv_into_apps rows pfx) name = Option.some app) :
    app.members = dedupFirst ((rows.filter (rowKeep pfx name)).map rowMember) :=
  (parse_char rows pfx name app h).2.2

/-- Witness for C4's amended theorem: three rows, one exact duplicate and one
row for another app. -/
theorem C4_witness :
    (⟨"A", [⟨"vm1", IpVal.s "10.0.0.1", Option.none⟩], []⟩ : UserDefinedApp).members
      = dedupFirst ((([⟨"A", "vm1", Option.some "10.0.0.1"⟩,
          ⟨"A", "vm1", Option.some "10.0.0.1"⟩,
          ⟨"B", "x", Option.none⟩] : List CsvRow).filter
            (rowKeep "" "A")).map rowMember) :=
  C4_member_count
    [⟨"A", "vm1", Option.some "10.0.0.1"⟩, ⟨"A", "vm1", Option.some "10.0.0.1"⟩,
     ⟨"B", "x", Option.none⟩] "" "A"
    ⟨"A", [⟨"vm1", IpVal.s "10.0.0.1", Option.none⟩], []⟩ (by decide)

/-- C5: the reconciler skips (and never creates) applications with no matched
members; every create carries a non-empty `staticConnections` and a name absent
from the existing-definitions index; every update carries a non-empty
`staticConnections` and targets exactly the id the index holds for its name;
and every non-empty app is updated when its name is indexed, created only
otherwise. -/
theorem C5_reconciler (existing : List ExistingDef)
    (apps : List (String × UserDefinedApp)) :
    (∀ p ∈ apps, p.2.member_uuids = [] →
        AtmAction.skipped p.2.name ∈ make_apps_thru_atm existing apps)
    ∧ (∀ dto, AtmAction.create dto ∈ make_apps_thru_atm existing apps →
        dto.staticConnections ≠ [] ∧
        dictGet (buildCurrentApps existing) dto.displayName = Option.none)
    ∧ (∀ u dto, AtmAction.update u dto ∈ make_apps_thru_atm existing apps →
        dto.staticConnections ≠ [] ∧
        dictGet (buildCurrentApps existing) dto.displayName = Option.some u)
    ∧ (∀ p ∈ apps, p.2.member_uuids ≠ [] →
        dictGet (buildCurrentApps existing) p.2.name = Option.none →
        AtmAction.create p.2.remove_members_without_matches.prep_app_topo_dto
          ∈ make_apps_thru_atm existing apps)
    ∧ (∀ p ∈ apps, p.2.member_uuids ≠ [] → ∀ u,
        dictGet (buildCurrentApps existing) p.2.name = Option.some u →
        AtmAction.update u p.2.remove_members_without_matches.prep_app_topo_dto
          ∈ make_apps_thru_atm existing apps) := by
  refine ⟨?_, ?_, ?_, ?_, ?_⟩
  · intro p hp hu
    have he : appAction (buildCurrentApps existing) p = AtmAction.skipped p.2.name := by
      simp [appAction, hu]
    exact he ▸ List.mem_map_of_mem (appAction (buildCurrentApps existing)) hp
  · intro dto hdto
    rcases List.mem_map.mp hdto with ⟨p, hp, hFp⟩
    by_cases hu : p.2.member_uuids = []
    · simp [appAction, hu] at hFp
    · rw [appAction, if_neg hu] at hFp
      cases hidx : dictGet (buildCurrentApps existing)
          p.2.remove_members_without_matches.name with
      | some u =>
        rw [hidx] at hFp
        cases hFp
      | none =>
        rw [hidx] at hFp
        have he : dto = p.2.remove_members_without_matches.prep_app_topo_dto :=
          (AtmAction.create.inj hFp).symm
        subst he
        constructor
        · show p.2.remove_members_without_matches.member_uuids ≠ []
          rw [remove_members_uuids]
          exact hu
        · show dictGet (buildCurrentApps existing)
            p.2.remove_members_without_matches.name = Option.none
          exact hidx
  · intro u dto hdto
    rcases List.mem_map.mp hdto with ⟨p, hp, hFp⟩
    by_cases hu : p.2.member_uuids = []
    · simp [appAction, hu] at hFp
    · rw [appAction, if_neg hu] at hFp
      cases hidx : dictGet (buildCurrentApps existing)
          p.2.remove_members_without_matches.name with
      | some u' =>
        rw [hidx] at hFp
        obtain ⟨he1, he2⟩ := AtmAction.update.inj hFp
        subst he1
        subst he2
        constructor
        · show p.2.remove_members_without_matches.member_uuids ≠ []
          rw [remove_members_uuids]
          exact hu
        · exact hidx
      | none =>
        rw [hidx] at hFp
        cases hFp
  · intro p hp hu hidx
    have he : appAction (buildCurrentApps existing) p
        = AtmAction.create p.2.remove_members_without_matches.prep_app_topo_dto := by
      rw [appAction, if_neg hu]
      rw [show dictGet (buildCurrentApps existing)
        p.2.remove_members_without_matches.name = Option.none from hidx]
    exact he ▸ List.mem_map_of_mem (appAction (buildCurrentApps existing)) hp
  · intro p hp hu u hidx
    have he : appAction (buildCurrentApps existing) p
        = AtmAction.update u p.2.remove_members_without_matches.prep_app_topo_dto := by
      rw [appAction, if_neg hu]
      rw [show dictGet (buildCurrentApps existing)
        p.2.remove_members_without_matches.name = Option.some u from hidx]
    exact he ▸ List.mem_map_of_mem (appAction (buildCurrentApps existing)) hp

/-- Witness for C5: an app named like an existing definition is updated
against that definition's id, and an app with no matched members is skipped. -/
theorem C5_witness :
    AtmAction.update "e1"
        (UserDefinedApp.mk "AppA"
          [⟨"vm1", IpVal.l ["10.0.0.1"], Option.some "u1"⟩]
          ["u1"]).remove_members_without_matches.prep_app_topo_dto
      ∈ make_apps_thru_atm [⟨"AppA", "e1"⟩]
        [("AppA", UserDefinedApp.mk "AppA"
            [⟨"vm1", IpVal.l ["10.0.0.1"], Option.some "u1"⟩] ["u1"]),
         ("B", UserDefinedApp.mk "B" [⟨"vm2", IpVal.s "", Option.none⟩] [])] :=
  (C5_reconciler [⟨"AppA", "e1"⟩]
    [("AppA", UserDefinedApp.mk "AppA"
        [⟨"vm1", IpVal.l ["10.0.0.1"], Option.some "u1"⟩] ["u1"]),
     ("B", UserDefinedApp.mk "B" [⟨"vm2", IpVal.s "", Option.none⟩] [])]).2.2.2.2
    ("AppA", UserDefinedApp.mk "AppA"
      [⟨"vm1", IpVal.l ["10.0.0.1"], Option.some "u1"⟩] ["u1"])
    (by decide) (by decide) "e1" (by decide)

/-- C6: when the bulk detail call for a window errors, the fetch retries the
same identifiers one by one and returns, in order, the details of exactly
those VMs whose individual fetch succeeds. -/
theorem C6_bulk_fallback (bulk : List String → Except Unit (List VmDetails))
    (single : String → Except Unit VmDetails) (uuids : List String)
    (h : bulk uuids = Except.error ()) :
    get_multiple_vm_details bulk single uuids
      = uuids.filterMap (fun u => match single u with
          | Except.ok d => Option.some (get_vm_info d)
          | Except.error _ => Option.none) := by
  rw [get_multiple_vm_details, h]
  exact get_individual_filterMap single uuids

/-- Witness for C6: the bulk call always errors, the per-item call fails only
for "v2"; the fetch returns v1 and v3. -/
theorem C6_witness :
    ((fun _ : List String => (Except.error () : Except Unit (List VmDetails)))
        ["v1", "v2", "v3"] = Except.error ())
    ∧ get_multiple_vm_details
        (fun _ => Except.error ())
        (fun u => if u == "v2" then Except.error ()
                  else Except.ok ⟨u, u, Option.none⟩)
        ["v1", "v2", "v3"]
      = [⟨"v1", "v1", []⟩, ⟨"v3", "v3", []⟩] := by
  refine ⟨rfl, ?_⟩
  rw [C6_bulk_fallback
    (fun _ => Except.error ())
    (fun u => if u == "v2" then Except.error () else Except.ok ⟨u, u, Option.none⟩)
    ["v1", "v2", "v3"] rfl]
  decide

/-- C7: with the parameters `main` passes (`start=0`, `end=step`), the fetch
pages through consecutive windows that concatenate back to exactly the full
identifier list (so they are pairwise disjoint and cover every identifier
once, in order), each window is non-empty and at most `step` long, and the
result is the per-window fetches concatenated in fetch order. -/
theorem C7_windows (fetch : List String → List TurboVm) (uuids : List String)
    (step : Nat) (hstep : 0 < step) :
    (get_turbo_vm_windows uuids 0 step step).flatten = uuids
    ∧ get_turbo_vms fetch uuids 0 step step
        = ((get_turbo_vm_windows uuids 0 step step).map fetch).flatten
    ∧ (∀ w ∈ get_turbo_vm_windows uuids 0 step step, w ≠ [] ∧ w.length ≤ step) := by
  have h0 : (0 : Nat) + step = step := Nat.zero_add step
  refine ⟨?_, ?_, ?_⟩
  · have hj := turboWindowLoop_join uuids step hstep (uuids.length + 1) 0 (by omega)
    rw [h0] at hj
    simpa [get_turbo_vm_windows] using hj
  · exact turboVmLoop_eq_windows fetch uuids (uuids.length + 1) 0 step step
  · intro w hw
    have hw' : w ∈ turboWindowLoop uuids (uuids.length + 1) 0 (0 + step) step := by
      rw [h0]
      exact hw
    exact turboWindowLoop_bounds uuids step hstep (uuids.length + 1) 0 w hw'

/-- Witness for C7 at a three-element identifier list and window size two. -/
theorem C7_witness :
    (0 : Nat) < 2
    ∧ (get_turbo_vm_windows ["a", "b", "c"] 0 2 2).flatten = ["a", "b", "c"] :=
  ⟨by decide, (C7_windows (fun _ => []) ["a", "b", "c"] 2 (by decide)).1⟩

/-- C8 counterexample: a row whose app-name cell is blank is skipped even
though a configured mapped column (`entity_name`, mapped to the absent column
"name") is missing from it — `read_csv` succeeds with no rows instead of
raising as the claim demands for any row missing a mapped column. -/
theorem C8_counterexample :
    read_csv [("app_name", "app"), ("entity_name", "name")] [[("app", "")]]
        = Except.ok []
    ∧ rowGet [("app", "")] "name" = Option.none := ⟨rfl, rfl⟩

/-- C8 (amended): a row whose app-name cell is blank is skipped and reading
continues — even when a configured mapped column is absent from it; a row
whose app-name cell is non-blank raises immediately (aborting ingestion) when
any configured mapped column is absent; and a row missing the app-name column
itself also aborts. -/
theorem C8_read_csv (hdrs : List (String × String)) (col : String)
    (row : CsvRawRow) (rest : List CsvRawRow)
    (hcol : dictGet hdrs "app_name" = Option.some col) :
    (rowGet row col = Option.some "" →
      read_csv hdrs (row :: rest) = read_csv hdrs rest)
    ∧ (∀ v, rowGet row col = Option.some v → v ≠ "" →
        (∃ kv ∈ hdrs, rowGet row kv.2 = Option.none) →
        read_csv hdrs (row :: rest) = Except.error ())
    ∧ (rowGet row col = Option.none →
        read_csv hdrs (row :: rest) = Except.error ()) := by
  refine ⟨?_, ?_, ?_⟩
  · intro hv
    simp [read_csv, hcol, hv]
  · intro v hv hne hex
    simp only [read_csv, hcol, hv, if_neg hne,
      process_entity_headers_error row hdrs hex]
  · intro hv
    simp [read_csv, hcol, hv]

/-- Witness for C8's amended theorem: the same header map, a row with a
non-blank app name and the `entity_name` column absent aborts. -/
theorem C8_witness :
    dictGet [("app_name", "app"), ("entity_name", "name")] "app_name"
        = Option.some "app"
    ∧ read_csv [("app_name", "app"), ("entity_name", "name")] [[("app", "x")]]
        = Except.error () :=
  ⟨rfl,
    (C8_read_csv [("app_name", "app"), ("entity_name", "name")] "app"
        [("app", "x")] [] rfl).2.1 "x" rfl (by decide)
      ⟨("entity_name", "name"), by decide, rfl⟩⟩

/-- C9: in name+IP mode a member whose extracted ip string is empty has the
singleton effective address set `{""}`; against any inventory whose VM
address lists omit the empty string it matches nothing (member and uuid set
unchanged), and an unmatched member never survives
`remove_members_without_matches`. -/
theorem C9_empty_ip (member : Member) (uuids : List String) (vms : List TurboVm)
    (app : UserDefinedApp)
    (hip : member.ip_address = IpVal.s "")
    (hoid : member.turbo_oid = Option.none)
    (hvm : ∀ vm ∈ vms, "" ∉ vm.ip_address) :
    memberIps member.ip_address = [""]
    ∧ matchMemberVms true member uuids vms = (member, uuids)
    ∧ member ∉ app.remove_members_without_matches.members := by
  have h1 : memberIps member.ip_address = [""] := by
    rw [hip]
    rfl
  have hfind : vms.find? (ipMatchCond member) = Option.none := by
    rw [List.find?_eq_none]
    intro vm hvm' hcond
    rw [ipMatchCond, Bool.and_eq_true] at hcond
    obtain ⟨-, hany⟩ := hcond
    rw [h1] at hany
    simp at hany
    exact hvm vm hvm' hany
  refine ⟨h1, ?_, ?_⟩
  · have e := matchMemberVms_eq true member uuids vms
    rw [show vms.find? (matchCond true member) = Option.none from hfind] at e
    exact e
  · intro hmem
    obtain ⟨-, htruthy⟩ := (mem_remove_members app member).mp hmem
    rw [hoid] at htruthy
    cases htruthy

/-- Witness for C9 at a concrete member with no extracted address. -/
theorem C9_witness :
    matchMemberVms true ⟨"vm1", IpVal.s "", Option.none⟩ []
        [⟨"u1", "VM1", ["10.0.0.7"]⟩]
      = (⟨"vm1", IpVal.s "", Option.none⟩, []) :=
  (C9_empty_ip ⟨"vm1", IpVal.s "", Option.none⟩ [] [⟨"u1", "VM1", ["10.0.0.7"]⟩]
    ⟨"A", [⟨"vm1", IpVal.s "", Option.none⟩], []⟩ rfl rfl (by decide)).2.1

/-- C10: for every app of the matched dict, the payload's `staticConnections`
(the serialized `member_uuids` set) has no duplicate platform id, even when
several distinct members resolve to the same VM. -/
theorem C10_static_connections_nodup (rows : List CsvRow) (pfx : String)
    (vms : List TurboVm) (mi : Bool) (name : String) (app : UserDefinedApp)
    (h : dictGet (match_apps_to_turbo_vms (parse_csv_into_apps rows pfx) vms mi) name
        = Option.some app) :
    app.prep_app_topo_dto.staticConnections.Nodup := by
  rw [match_apps_to_turbo_vms, dictGet_map_values] at h
  cases h0 : dictGet (parse_csv_into_apps rows pfx) name with
  | none =>
    rw [h0] at h
    cases h
  | some app0 =>
    rw [h0] at h
    have he : app = matchApp mi vms app0 := (Option.some.inj h).symm
    subst he
    have huuids := (parse_members_clean rows pfx name app0 h0).2
    show (matchMembersLoop mi vms app0.members app0.member_uuids).2.Nodup
    exact matchMembersLoop_snd_nodup mi vms app0.members app0.member_uuids
      (huuids ▸ List.nodup_nil)

/-- Witness for C10: two distinct members (`vm1`, `Vm1`) both resolve to the
same VM, yet "u1" appears once in the payload. -/
theorem C10_witness :
    (UserDefinedApp.mk "A"
        [⟨"vm1", IpVal.l ["10.0.0.5"], Option.some "u1"⟩,
         ⟨"Vm1", IpVal.l ["10.0.0.5"], Option.some "u1"⟩]
        ["u1"]).prep_app_topo_dto.staticConnections.Nodup :=
  C10_static_connections_nodup
    [⟨"A", "vm1", Option.some "10.0.0.5"⟩, ⟨"A", "Vm1", Option.some "10.0.0.5"⟩]
    "" [⟨"u1", "VM1", ["10.0.0.5"]⟩] true "A"
    (UserDefinedApp.mk "A"
      [⟨"vm1", IpVal.l ["10.0.0.5"], Option.some "u1"⟩,
       ⟨"Vm1", IpVal.l ["10.0.0.5"], Option.some "u1"⟩]
      ["u1"])
    (by decide)

end CsvAppTopo
